import Mathlib

/-!
CmdBar: the progress-bar state machine of `CmdBar.h`

A shallow embedding of the header-only progress bar `namespace bar` (file `CmdBar.h`).

* The inline globals `progress_idle`, `progress_stop`, `progress_text`, `progress_total`,
  `progress_step`, `progress_current`, `progress_time` become the fields of `bar.State`.
* `size_t` is a natural number below `2 ^ 64`; every `size_t` operation that can overflow is
  reduced with `bar.wrap`.
* `std::string` is a list of `char`s.
* What a call writes to `std::cout` is a list of `bar.Event`s, in order of emission;
  `bar.Event.text` gives the characters of each.
* The `double` arithmetic of the fill position is binary64 with round-to-nearest-even, modelled
  exactly on fractions (`bar.Double`).
* What a call observes of the outside world (`isatty(fileno(stdout))`, `Clock::now()`) is a
  `bar.Env`.  The POSIX branch of the platform switch (`#else` of `#ifdef _WIN32`) is modelled.
* A call that throws `std::runtime_error` leaves the globals as they were at the `throw`;
  `bar.Outcome` therefore carries the state and the output also for a failed call.
-/

namespace bar

/-! ## Constants and machine arithmetic -/

/-- The constant `constexpr size_t bar_width = 50`. -/
def bar_width : Nat := 50

/-- The constant `constexpr size_t text_width = 35`. -/
def text_width : Nat := 35

/-- Number of values of `size_t` (64-bit). -/
def size_mod : Nat := 2 ^ 64

/-- Reduction of an unsigned result to `size_t`. -/
def wrap (n : Nat) : Nat := n % size_mod

/-! ## State, environment, output -/

/-- The inline globals of `namespace bar`. `progress_time` is a `steady_clock` time point,
counted in clock ticks (nanoseconds). -/
structure State where
  progress_idle : Bool
  progress_stop : Bool
  progress_text : List Char
  progress_total : Nat
  progress_step : Nat
  progress_current : Nat
  progress_time : Int
deriving DecidableEq, Repr

/-- The globals as initialised at program start. -/
def State.initial : State :=
  { progress_idle := false, progress_stop := false, progress_text := [], progress_total := 0,
    progress_step := 0, progress_current := 0, progress_time := 0 }

/-- What one call observes outside the globals: whether `stdout` is a terminal
(`isatty(fileno(stdout))`) and the reading of `Clock::now()` in ticks (nanoseconds). -/
structure Env where
  tty : Bool
  now : Int
deriving DecidableEq, Repr

/-- The two `std::runtime_error`s thrown by the header: `"Progress total is zero."` (by `start`)
and `"Progress total is zero. Call start() first."` (by `step`). -/
inductive Error where
  | zero_total
  | not_started
deriving DecidableEq, Repr

/-- One unit of output on `std::cout`.
* `render text complete colored`: the line written by `print(complete)` while the label is `text`;
  `colored` is the result of `SetConsoleTextAttributeBlue`.
* `summary d`: the text `"  ->  " << d << std::endl` written by `stop()`.
* `cursor_hide` and `cursor_show`: the escape sequences `"\x1b[?25l"` and `"\x1b[?25h"`. -/
inductive Event where
  | render (text : List Char) (complete : Nat) (colored : Bool)
  | summary (duration : List Char)
  | cursor_hide
  | cursor_show
deriving DecidableEq, Repr

/-- Result of a call: the globals after it, what it wrote, and the exception it threw, if any. -/
structure Outcome where
  state : State
  out : List Event
  err : Option Error
deriving DecidableEq, Repr

/-! ## Operations -/

/-- Source `isIdle()`. -/
def isIdle (s : State) : Bool := s.progress_idle

/-- Source `hide_cursor()` (POSIX branch): nothing when idle or when `stdout` is no terminal. -/
def hide_cursor (env : Env) (s : State) : List Event :=
  if s.progress_idle then []
  else if !env.tty then []
  else [Event.cursor_hide]

/-- Source `show_cursor()` (POSIX branch): nothing when idle or when `stdout` is no terminal. -/
def show_cursor (env : Env) (s : State) : List Event :=
  if s.progress_idle then []
  else if !env.tty then []
  else [Event.cursor_show]

/-- Source `idle(bool set = true)`: shows the cursor when `set`, then stores the flag. -/
def idle (env : Env) (set : Bool) (s : State) : Outcome :=
  { state := { s with progress_idle := set }
    out := if set then show_cursor env s else []
    err := none }

/-- Source `clear()`. -/
def clear (s : State) : State :=
  { s with progress_stop := false, progress_text := [], progress_total := 0,
           progress_step := 0, progress_current := 0 }

/-- Source `set_text(text)`: stores the text, cut to `text_width` characters. -/
def set_text (text : List Char) (s : State) : State :=
  let s1 := { s with progress_text := text }
  if s1.progress_text.length > text_width then
    if text_width ≥ 3 then
      { s1 with progress_text := s1.progress_text.take (text_width - 3) ++ ['.', '.', '.'] }
    else
      { s1 with progress_text := s1.progress_text.take text_width }
  else s1

/-- Source `print(complete)`: nothing when idle or stopped, else one rendered line; `colored` is
the result of `SetConsoleTextAttributeBlue`, which is `isatty(fileno(stdout))`. -/
def print (env : Env) (complete : Nat) (s : State) : List Event :=
  if s.progress_idle then []
  else if s.progress_stop then []
  else [Event.render s.progress_text complete env.tty]

/-- Source `std::to_string` on a signed count. -/
def to_string (n : Int) : List Char := (toString n).toList

/-- The part of source `stop(const time_point<Clock>& start)` after the clock is read: the text
for an elapsed time of `duration` microseconds. Division and remainder truncate towards zero. -/
def format_duration (duration : Int) : List Char :=
  let hours := duration.tdiv 3600000000
  let minutes := (duration.tmod 3600000000).tdiv 60000000
  let seconds := (duration.tmod 60000000).tdiv 1000000
  let milliseconds := (duration.tmod 1000000).tdiv 1000
  let microseconds := duration.tmod 1000
  if hours > 0 ∨ minutes > 0 then
    ((if hours < 10 then ['0'] else []) ++ to_string hours ++ [':'])
      ++ ((if minutes < 10 then ['0'] else []) ++ to_string minutes ++ [':'])
      ++ ((if seconds < 10 then ['0'] else []) ++ to_string seconds)
  else if seconds > 0 then
    to_string seconds ++ " seconds".toList
  else if milliseconds > 0 then
    to_string milliseconds ++ " milliseconds".toList
  else
    to_string microseconds ++ " microseconds".toList

/-- Source `stop(const time_point<Clock>& start)`:
`duration_cast<microseconds>(Clock::now() - start)` of nanosecond ticks, then formatted. -/
def stop_duration (env : Env) (start : Int) : List Char :=
  format_duration ((env.now - start).tdiv 1000)

/-- Source `stop()`. -/
def stop (env : Env) (s : State) : Outcome :=
  if s.progress_idle then { state := s, out := [], err := none }
  else if s.progress_stop then { state := s, out := [], err := none }
  else
    let o1 := print env 100 s
    let o2 := [Event.summary (stop_duration env s.progress_time)]
    let s1 := clear s
    let o3 := show_cursor env s1
    { state := { s1 with progress_stop := true }, out := o1 ++ o2 ++ o3, err := none }

/-- Source `step(const size_t step)`. -/
def step (env : Env) (n : Nat) (s : State) : Outcome :=
  if s.progress_idle then { state := s, out := [], err := none }
  else if s.progress_stop then { state := s, out := [], err := none }
  else if s.progress_total = 0 then { state := s, out := [], err := some Error.not_started }
  else if n > s.progress_total then { state := s, out := [], err := none }
  else if n = s.progress_total then stop env s
  else
    let temp := wrap (wrap (n * 100) + s.progress_total / 2) / s.progress_total
    if temp = s.progress_current then { state := s, out := [], err := none }
    else
      let s1 := { s with progress_current := temp }
      if s1.progress_current = 100 then stop env s1
      else { state := s1, out := print env s1.progress_current s1, err := none }

/-- Source `step()`: the counter is incremented (`++progress_step`) before `step(size_t)` runs. -/
def step_inc (env : Env) (s : State) : Outcome :=
  if s.progress_idle then { state := s, out := [], err := none }
  else if s.progress_stop then { state := s, out := [], err := none }
  else
    let s1 := { s with progress_step := wrap (s.progress_step + 1) }
    step env s1.progress_step s1

/-- Source `start(text, total)`. -/
def start (env : Env) (text : List Char) (total : Nat) (s : State) : Outcome :=
  if total = 0 then { state := s, out := [], err := some Error.zero_total }
  else
    let s1 := clear s
    let o1 := hide_cursor env s1
    let s2 := set_text text s1
    let s3 := { s2 with progress_total := total }
    let s4 := { s3 with progress_time := env.now }
    { state := s4, out := o1 ++ print env 0 s4, err := none }

/-! ## Callers and observations -/

/-- Sequencing of two calls by a caller that does not catch: when the first call throws, the
second does not run; otherwise the outputs are concatenated. -/
def Outcome.and_then (o : Outcome) (f : State → Outcome) : Outcome :=
  match o.err with
  | some _ => o
  | none => { state := (f o.state).state, out := o.out ++ (f o.state).out, err := (f o.state).err }

/-- A caller invoking `step()` once per element of `envs`, in order. -/
def step_inc_run : List Env → State → Outcome
  | [], s => { state := s, out := [], err := none }
  | e :: es, s => (step_inc e s).and_then (step_inc_run es)

/-- The percentages of the `print` lines in an output, in order. -/
def rendered : List Event → List Nat
  | [] => []
  | Event.render _ c _ :: es => c :: rendered es
  | _ :: es => rendered es

/-- The duration texts of the summary lines in an output, in order. -/
def summaries : List Event → List (List Char)
  | [] => []
  | Event.summary d :: es => d :: summaries es
  | _ :: es => summaries es

/-- The value `temp` of `step(n)` for a session of `total` units:
`(step * 100 + progress_total / 2) / progress_total` in `size_t` arithmetic. -/
def percent_of (n total : Nat) : Nat :=
  wrap (wrap (n * 100) + total / 2) / total

/-- The state left by `clear()` followed by `progress_stop = true`, as at the end of `stop()`. -/
def stopped_state (s : State) : State :=
  { progress_idle := s.progress_idle, progress_stop := true, progress_text := [],
    progress_total := 0, progress_step := 0, progress_current := 0,
    progress_time := s.progress_time }

/-- What `stop()` writes on a session that is neither idle nor stopped. -/
def stop_output (env : Env) (s : State) : List Event :=
  [Event.render s.progress_text 100 env.tty, Event.summary (stop_duration env s.progress_time)]
    ++ (if env.tty then [Event.cursor_show] else [])

/-- The state of a session of `n` units after `k` calls of `step()` that has not stopped yet:
the step counter is `k` and the percentage is the rounded one for `k`, below 100. -/
def Running (n k : Nat) (s : State) : Prop :=
  s.progress_idle = false ∧ s.progress_stop = false ∧ s.progress_total = n
    ∧ s.progress_step = k ∧ s.progress_current = (k * 100 + n / 2) / n
    ∧ s.progress_current < 100

instance (n k : Nat) (s : State) : Decidable (Running n k s) := by
  unfold Running
  infer_instance

/-! ## Callers of the public operations -/

/-- The public operations of the header, as a caller invokes them. -/
inductive Call where
  | start (text : List Char) (total : Nat)
  | step (n : Nat)
  | step_inc
  | stop
  | clear
  | idle (set : Bool)
deriving DecidableEq, Repr

/-- The outcome of one public operation; `clear()` writes nothing and throws nothing. -/
def Call.run (env : Env) : Call → State → Outcome
  | Call.start text total, s => bar.start env text total s
  | Call.step n, s => bar.step env n s
  | Call.step_inc, s => bar.step_inc env s
  | Call.stop, s => bar.stop env s
  | Call.clear, s => { state := bar.clear s, out := [], err := none }
  | Call.idle set, s => bar.idle env set s

/-- The states reachable from the globals at program start by public operations; a caller
that catches a thrown error continues from the globals as the failed call left them. -/
inductive Reachable : State → Prop where
  | initial : Reachable State.initial
  | call (env : Env) (c : Call) (s : State) : Reachable s → Reachable (c.run env s).state

/-- The globals after each call of a caller invoking `step(n)` once per element, in order. -/
def step_states : List (Env × Nat) → State → List State
  | [], _ => []
  | (e, n) :: r, s => (step e n s).state :: step_states r (step e n s).state

/-- The globals after each call of a caller invoking `step()` once per element, in order. -/
def step_inc_states : List Env → State → List State
  | [], _ => []
  | e :: r, s => (step_inc e s).state :: step_inc_states r (step_inc e s).state

/-- The relation between the globals before and after a call that leaves the session running:
`progress_current` has not decreased. -/
def percent_kept (a b : State) : Prop :=
  b.progress_stop = false → a.progress_current ≤ b.progress_current

instance (a b : State) : Decidable (percent_kept a b) := by
  unfold percent_kept
  infer_instance

/-! ## The duration text in the words of the specification -/

/-- The decimal digits of a natural number. -/
def decimal (n : Nat) : List Char := (toString n).toList

/-- Padding with `'0'` on the left to at least `w` characters. -/
def zero_pad (w : Nat) (cs : List Char) : List Char :=
  List.replicate (w - cs.length) '0' ++ cs

/-- The text for an elapsed time of `d` whole microseconds as the specification words it:
`H:M:S`, each zero-padded to two digits, from one minute on; else whole seconds; else whole
milliseconds; else microseconds. -/
def duration_text_spec (d : Nat) : List Char :=
  if d ≥ 60000000 then
    zero_pad 2 (decimal (d / 3600000000)) ++ [':']
      ++ zero_pad 2 (decimal (d / 60000000 % 60)) ++ [':']
      ++ zero_pad 2 (decimal (d / 1000000 % 60))
  else if d ≥ 1000000 then decimal (d / 1000000) ++ " seconds".toList
  else if d ≥ 1000 then decimal (d / 1000) ++ " milliseconds".toList
  else decimal d ++ " microseconds".toList

/-! ## Binary64 arithmetic of the fill position

`print` computes the fill position in `double`. A `double` that is not negative is modelled
exactly, as a fraction whose denominator is a power of two; every operation returns the
binary64 number nearest to the exact result, ties to the even significand (IEEE 754
round-to-nearest-even, each operation evaluated in binary64). The exponent range is not
limited: the values that occur, between `1 / 100` and `2 ^ 70`, are normal numbers. -/

/-- The integer nearest to `a / b`, the even one on a tie. -/
def round_nearest_even (a b : Nat) : Nat :=
  let q := a / b
  let r := a % b
  if 2 * r < b then q
  else if 2 * r > b then q + 1
  else if q % 2 = 0 then q
  else q + 1

/-- The least `k` from the given one on with `2 ^ 52 ≤ a * 2 ^ k / b`. -/
def scale_up : Nat → Nat → Nat → Nat → Nat
  | 0, _, _, k => k
  | fuel + 1, a, b, k => if 2 ^ 52 * b ≤ a * 2 ^ k then k else scale_up fuel a b (k + 1)

/-- The least `j` from the given one on with `a / (b * 2 ^ j) < 2 ^ 53`. -/
def scale_down : Nat → Nat → Nat → Nat → Nat
  | 0, _, _, j => j
  | fuel + 1, a, b, j => if a < 2 ^ 53 * b * 2 ^ j then j else scale_down fuel a b (j + 1)

/-- A `double` that is not negative: the number `num / den`. -/
structure Double where
  num : Nat
  den : Nat
deriving DecidableEq, Repr

/-- The binary64 number nearest to `a / b`: the quotient is scaled by a power of two into
`[2 ^ 52, 2 ^ 53)`, rounded there to an integer significand of 53 bits, and scaled back. -/
def Double.nearest (a b : Nat) : Double :=
  if a = 0 then { num := 0, den := 1 }
  else if a < 2 ^ 52 * b then
    let k := scale_up 1100 a b 0
    { num := round_nearest_even (a * 2 ^ k) b, den := 2 ^ k }
  else
    let j := scale_down 1100 a b 0
    { num := round_nearest_even a (b * 2 ^ j) * 2 ^ j, den := 1 }

/-- Source `static_cast<double>(n)` of a `size_t`, and a literal such as `100.0`. -/
def Double.of_nat (n : Nat) : Double := Double.nearest n 1

/-- Source `x / y` on `double`s. -/
def Double.div (x y : Double) : Double := Double.nearest (x.num * y.den) (x.den * y.num)

/-- Source `x * y` on `double`s. -/
def Double.mul (x y : Double) : Double := Double.nearest (x.num * y.num) (x.den * y.den)

/-- Source `static_cast<size_t>(std::round(x))`: the nearest integer, halves away from zero. -/
def Double.round_to_size (x : Double) : Nat := (2 * x.num + x.den) / (2 * x.den)

/-- The value `pos` of `print(complete)`:
`static_cast<size_t>(std::round(static_cast<double>(bar_width)
* (static_cast<double>(complete) / 100.0)))`. -/
def fill_pos (complete : Nat) : Nat :=
  (Double.mul (Double.of_nat bar_width)
    (Double.div (Double.of_nat complete) (Double.of_nat 100))).round_to_size

/-! ## The characters written -/

/-- Source `std::left << std::setw(w) << text`: the text, then spaces up to `w` characters. -/
def left_setw (w : Nat) (text : List Char) : List Char :=
  text ++ List.replicate (w - text.length) ' '

/-- The character written by the loop of `print` at index `i`. -/
def glyph (pos i : Nat) : Char :=
  if i < pos then '='
  else if i = pos then '>'
  else ' '

/-- The `bar_width` characters written by the loop of `print`. -/
def glyphs (pos : Nat) : List Char := (List.range bar_width).map (glyph pos)

/-- The escape sequence written by `SetConsoleTextAttributeBlue`. -/
def color_begin : List Char := Char.ofNat 27 :: "[94m".toList

/-- The escape sequence written by `RestoreConsoleTextAttribute`. -/
def color_restore : List Char := Char.ofNat 27 :: "[0m".toList

/-- The characters written by `print(complete)` while the label is `text`; `colored` is the
result of `SetConsoleTextAttributeBlue`. -/
def print_text (text : List Char) (complete : Nat) (colored : Bool) : List Char :=
  [Char.ofNat 13] ++ left_setw text_width text ++ " [".toList
    ++ (if colored then color_begin else [])
    ++ glyphs (fill_pos complete)
    ++ (if colored then color_restore else [])
    ++ "] ".toList ++ decimal complete ++ ['%']

/-- The characters of one unit of output. -/
def Event.text : Event → List Char
  | Event.render text complete colored => print_text text complete colored
  | Event.summary duration => "  ->  ".toList ++ duration ++ [Char.ofNat 10]
  | Event.cursor_hide => Char.ofNat 27 :: "[?25l".toList
  | Event.cursor_show => Char.ofNat 27 :: "[?25h".toList

/-! ## Basic facts -/

theorem wrap_of_lt {n : Nat} (h : n < size_mod) : wrap n = n :=
  Nat.mod_eq_of_lt h

theorem stop_of_running (env : Env) (s : State) (hi : s.progress_idle = false)
    (hs : s.progress_stop = false) :
    stop env s = { state := stopped_state s, out := stop_output env s, err := none } := by
  cases h : env.tty <;>
    simp [stop, hi, hs, print, show_cursor, clear, stopped_state, stop_output, h]

theorem stop_of_idle_or_stopped (env : Env) (s : State)
    (h : s.progress_idle = true ∨ s.progress_stop = true) :
    stop env s = { state := s, out := [], err := none } := by
  rcases h with h | h
  · simp [stop, h]
  · cases hi : s.progress_idle <;> simp [stop, h, hi]

/-- The call `set_text` changes the label only. -/
theorem set_text_frame (text : List Char) (s : State) :
    set_text text s = { s with progress_text := (set_text text s).progress_text } := by
  unfold set_text
  simp only
  split
  · split <;> rfl
  · rfl

/-- A `start` with a positive total, in one step. -/
theorem start_of_pos (env : Env) (text : List Char) (total : Nat) (s : State) (ht : 0 < total) :
    start env text total s =
      { state :=
          { progress_idle := s.progress_idle, progress_stop := false,
            progress_text := (set_text text (clear s)).progress_text, progress_total := total,
            progress_step := 0, progress_current := 0, progress_time := env.now }
        out :=
          if s.progress_idle then []
          else (if env.tty then [Event.cursor_hide] else [])
            ++ [Event.render (set_text text (clear s)).progress_text 0 env.tty]
        err := none } := by
  have h0 : total ≠ 0 := Nat.pos_iff_ne_zero.mp ht
  unfold start
  rw [if_neg h0]
  simp only
  rw [set_text_frame text (clear s)]
  cases hi : s.progress_idle <;> cases hty : env.tty <;>
    simp [clear, hide_cursor, print, hi, hty]

theorem start_ok (env : Env) (text : List Char) (total : Nat) (s : State) (ht : 0 < total) :
    (start env text total s).err = none
      ∧ (start env text total s).state.progress_idle = s.progress_idle
      ∧ (start env text total s).state.progress_stop = false
      ∧ (start env text total s).state.progress_total = total
      ∧ (start env text total s).state.progress_step = 0
      ∧ (start env text total s).state.progress_current = 0 := by
  rw [start_of_pos env text total s ht]
  exact ⟨rfl, rfl, rfl, rfl, rfl, rfl⟩

/-- The calls of `step(size_t)` on a running session, case by case. -/
theorem step_of_running (env : Env) (n : Nat) (s : State) (hi : s.progress_idle = false)
    (hs : s.progress_stop = false) (ht : 0 < s.progress_total) :
    step env n s =
      if n > s.progress_total then { state := s, out := [], err := none }
      else if n = s.progress_total then
        { state := stopped_state s, out := stop_output env s, err := none }
      else if percent_of n s.progress_total = s.progress_current then
        { state := s, out := [], err := none }
      else if percent_of n s.progress_total = 100 then
        { state := stopped_state s, out := stop_output env s, err := none }
      else
        { state := { s with progress_current := percent_of n s.progress_total }
          out := [Event.render s.progress_text (percent_of n s.progress_total) env.tty]
          err := none } := by
  have h0 : s.progress_total ≠ 0 := Nat.pos_iff_ne_zero.mp ht
  unfold step
  simp only [hi, hs, h0, if_false, Bool.false_eq_true, ← percent_of.eq_1]
  split
  · rfl
  · split
    · exact stop_of_running env s hi hs
    · split
      · rfl
      · split
        · rw [stop_of_running env _ rfl rfl]
          simp [stopped_state, stop_output, hi]
        · simp [print, hi, hs]

/-- The round-half-up quotient never exceeds 100 for a step within the total. -/
theorem quotient_le_100 (n total : Nat) (ht : 0 < total) (hn : n ≤ total) :
    (n * 100 + total / 2) / total ≤ 100 := by
  have h2 : total / 2 < total := Nat.div_lt_self ht (by decide)
  have h3 : n * 100 + total / 2 < 101 * total := by nlinarith
  have := (Nat.div_lt_iff_lt_mul ht).mpr h3
  omega

theorem rendered_append (a b : List Event) : rendered (a ++ b) = rendered a ++ rendered b := by
  induction a with
  | nil => rfl
  | cons e es ih => cases e <;> simp [rendered, ih]

theorem summaries_append (a b : List Event) :
    summaries (a ++ b) = summaries a ++ summaries b := by
  induction a with
  | nil => rfl
  | cons e es ih => cases e <;> simp [summaries, ih]

theorem rendered_stop_output (env : Env) (s : State) : rendered (stop_output env s) = [100] := by
  cases h : env.tty <;> simp [stop_output, rendered, h]

theorem summaries_stop_output (env : Env) (s : State) :
    (summaries (stop_output env s)).length = 1 := by
  cases h : env.tty <;> simp [stop_output, summaries, h]

/-- Once stopped, any number of `step()` calls does nothing. -/
theorem step_inc_run_of_stopped (envs : List Env) (s : State) (hs : s.progress_stop = true) :
    step_inc_run envs s = { state := s, out := [], err := none } := by
  induction envs with
  | nil => rfl
  | cons e es ih =>
    have h1 : step_inc e s = { state := s, out := [], err := none } := by
      cases hi : s.progress_idle <;> simp [step_inc, hs, hi]
    simp [step_inc_run, h1, Outcome.and_then, ih]

/-- The call `step(k + 1)` on a running session whose percentage is the rounded one for `k`:
either the session keeps running with the percentage of `k + 1`, having rendered it if it
changed, or it has stopped. -/
theorem step_succ_of_running (env : Env) (k : Nat) (t : State) (hi : t.progress_idle = false)
    (hs : t.progress_stop = false) (hk : k < t.progress_total)
    (hrep : t.progress_total * 100 + t.progress_total / 2 < size_mod)
    (hc : t.progress_current = (k * 100 + t.progress_total / 2) / t.progress_total)
    (hlt : t.progress_current < 100) :
    (step env (k + 1) t).err = none
      ∧ (((step env (k + 1) t).state.progress_idle = false
            ∧ (step env (k + 1) t).state.progress_stop = false
            ∧ (step env (k + 1) t).state.progress_total = t.progress_total
            ∧ (step env (k + 1) t).state.progress_step = t.progress_step
            ∧ (step env (k + 1) t).state.progress_current
                = ((k + 1) * 100 + t.progress_total / 2) / t.progress_total
            ∧ (step env (k + 1) t).state.progress_current < 100
            ∧ k + 1 < t.progress_total
            ∧ stopped_state (step env (k + 1) t).state = stopped_state t
            ∧ t.progress_current ≤ (step env (k + 1) t).state.progress_current
            ∧ rendered (step env (k + 1) t).out
                = (if (step env (k + 1) t).state.progress_current = t.progress_current then []
                   else [(step env (k + 1) t).state.progress_current])
            ∧ summaries (step env (k + 1) t).out = [])
          ∨ ((step env (k + 1) t).state = stopped_state t
              ∧ rendered (step env (k + 1) t).out = [100]
              ∧ (summaries (step env (k + 1) t).out).length = 1)) := by
  have hn : 0 < t.progress_total := by omega
  have hp : percent_of (k + 1) t.progress_total
      = ((k + 1) * 100 + t.progress_total / 2) / t.progress_total := by
    unfold percent_of
    have h1 : (k + 1) * 100 + t.progress_total / 2 < size_mod := by nlinarith
    rw [wrap_of_lt (show (k + 1) * 100 < size_mod by omega), wrap_of_lt h1]
  have hmono : (k * 100 + t.progress_total / 2) / t.progress_total
      ≤ ((k + 1) * 100 + t.progress_total / 2) / t.progress_total :=
    Nat.div_le_div_right (by omega)
  have hle100 := quotient_le_100 (k + 1) t.progress_total hn hk
  have hrun := step_of_running env (k + 1) t hi hs hn
  rw [if_neg (show ¬ k + 1 > t.progress_total by omega)] at hrun
  have hstopped : (step env (k + 1) t) =
      { state := stopped_state t, out := stop_output env t, err := none } →
      (step env (k + 1) t).err = none
        ∧ ((step env (k + 1) t).state = stopped_state t
          ∧ rendered (step env (k + 1) t).out = [100]
          ∧ (summaries (step env (k + 1) t).out).length = 1) := by
    intro h
    rw [h]
    exact ⟨rfl, rfl, rendered_stop_output _ _, summaries_stop_output _ _⟩
  by_cases h1 : k + 1 = t.progress_total
  · rw [if_pos h1] at hrun
    exact ⟨(hstopped hrun).1, Or.inr (hstopped hrun).2⟩
  · rw [if_neg h1] at hrun
    by_cases h2 : percent_of (k + 1) t.progress_total = t.progress_current
    · rw [if_pos h2] at hrun
      rw [hrun]
      rw [hp] at h2
      exact ⟨rfl, Or.inl ⟨hi, hs, rfl, rfl, h2.symm, hlt, by omega, rfl, le_refl _,
        by simp [rendered], by simp [summaries]⟩⟩
    · rw [if_neg h2] at hrun
      by_cases h3 : percent_of (k + 1) t.progress_total = 100
      · rw [if_pos h3] at hrun
        exact ⟨(hstopped hrun).1, Or.inr (hstopped hrun).2⟩
      · rw [if_neg h3] at hrun
        rw [hrun]
        refine ⟨rfl, Or.inl ⟨hi, hs, rfl, rfl, hp, ?_, by omega, by simp [stopped_state], ?_, ?_,
          by simp [summaries]⟩⟩
        · show percent_of (k + 1) t.progress_total < 100
          rw [hp] at h3 ⊢
          omega
        · show t.progress_current ≤ percent_of (k + 1) t.progress_total
          rw [hp]
          omega
        · simp [rendered, h2]

/-- One `step()` on a running session of `n` units: either the session keeps running with the
percentage of the next step, having rendered it if it changed, or it has stopped. -/
theorem step_inc_of_running (env : Env) (n k : Nat) (s : State) (hR : Running n k s)
    (hk : k < n) (hrep : n * 100 + n / 2 < size_mod) :
    (step_inc env s).err = none
      ∧ ((Running n (k + 1) (step_inc env s).state ∧ k + 1 < n
            ∧ stopped_state (step_inc env s).state = stopped_state s
            ∧ s.progress_current ≤ (step_inc env s).state.progress_current
            ∧ rendered (step_inc env s).out
                = (if (step_inc env s).state.progress_current = s.progress_current then []
                   else [(step_inc env s).state.progress_current])
            ∧ summaries (step_inc env s).out = [])
          ∨ ((step_inc env s).state = stopped_state s
              ∧ rendered (step_inc env s).out = [100]
              ∧ (summaries (step_inc env s).out).length = 1)) := by
  obtain ⟨hi, hs, ht, hst, hc, hlt⟩ := hR
  subst ht
  have hw : wrap (s.progress_step + 1) = k + 1 := by
    rw [hst]
    exact wrap_of_lt (by omega)
  have e : step_inc env s = step env (k + 1) { s with progress_step := k + 1 } := by
    simp [step_inc, hi, hs, hw]
  rw [e]
  obtain ⟨he, hcase⟩ := step_succ_of_running env k { s with progress_step := k + 1 } hi hs hk
    hrep hc hlt
  refine ⟨he, ?_⟩
  rcases hcase with ⟨a1, a2, a3, a4, a5, a6, a7, a8, a9, a10, a11⟩ | ⟨b1, b2, b3⟩
  · exact Or.inl ⟨⟨a1, a2, a3, a4, a5, a6⟩, a7, a8, a9, a10, a11⟩
  · exact Or.inr ⟨b1, b2, b3⟩

/-- The remaining `step()` calls of a running session of `n` units, after `k` of them. -/
theorem step_inc_run_of_running (n : Nat) (hrep : n * 100 + n / 2 < size_mod) :
    ∀ (envs : List Env) (k : Nat) (s : State), Running n k s → k < n → k + envs.length = n →
      (step_inc_run envs s).err = none
        ∧ (step_inc_run envs s).state = stopped_state s
        ∧ List.Pairwise (· < ·) (s.progress_current :: rendered (step_inc_run envs s).out)
        ∧ (rendered (step_inc_run envs s).out).getLast? = some 100
        ∧ (summaries (step_inc_run envs s).out).length = 1 := by
  intro envs
  induction envs with
  | nil =>
    intro k s _ hk hlen
    simp at hlen
    omega
  | cons e es ih =>
    intro k s hR hk hlen
    have hlt := hR.2.2.2.2.2
    obtain ⟨he, hcase⟩ := step_inc_of_running e n k s hR hk hrep
    simp only [step_inc_run, Outcome.and_then, he]
    rcases hcase with ⟨hR1, hk1, hst, hle, hrend, hsum⟩ | ⟨hst, hrend, hsum⟩
    · have hlen1 : k + 1 + es.length = n := by
        simp at hlen
        omega
      obtain ⟨ie, ist, ipw, ilast, isum⟩ := ih (k + 1) _ hR1 hk1 hlen1
      refine ⟨ie, by rw [ist, hst], ?_, ?_, ?_⟩
      · rw [rendered_append, hrend]
        split_ifs with heq
        · rw [List.nil_append, ← heq]
          exact ipw
        · have hlt1 : s.progress_current < (step_inc e s).state.progress_current :=
            lt_of_le_of_ne hle (Ne.symm heq)
          rw [List.singleton_append, List.pairwise_cons]
          refine ⟨?_, ipw⟩
          intro a ha
          rcases List.mem_cons.mp ha with rfl | ha
          · exact hlt1
          · exact lt_trans hlt1 ((List.pairwise_cons.mp ipw).1 a ha)
      · rw [rendered_append, List.getLast?_append, ilast]
        rfl
      · rw [summaries_append, hsum, List.nil_append]
        exact isum
    · have hstop : (step_inc e s).state.progress_stop = true := by
        rw [hst]
        rfl
      rw [step_inc_run_of_stopped es _ hstop]
      simp only [List.append_nil]
      refine ⟨trivial, hst, ?_, ?_, hsum⟩
      · rw [hrend]
        simp [hlt]
      · rw [hrend]
        rfl

/-- The percentage computed for a step below the total is at most 100, also when
`step * 100 + total / 2` wraps around. -/
theorem percent_of_le_100 (n total : Nat) (h : n < total) : percent_of n total ≤ 100 := by
  have ht : 0 < total := by omega
  unfold percent_of
  by_cases hrep : n * 100 + total / 2 < size_mod
  · rw [wrap_of_lt (show n * 100 < size_mod by omega), wrap_of_lt hrep]
    exact quotient_le_100 n total ht (by omega)
  · have hx : wrap (wrap (n * 100) + total / 2) < size_mod := Nat.mod_lt _ (by decide)
    have h2 : total / 2 < total := Nat.div_lt_self ht (by decide)
    have h3 : wrap (wrap (n * 100) + total / 2) < 101 * total := by nlinarith
    have := (Nat.div_lt_iff_lt_mul ht).mpr h3
    omega

/-- The label stored by `set_text` does not depend on the other globals. -/
theorem set_text_text (text : List Char) (s : State) :
    (set_text text s).progress_text
      = if text.length > text_width then text.take (text_width - 3) ++ ['.', '.', '.'] else text := by
  unfold set_text
  simp only
  split
  · rw [if_pos (by decide)]
  · rfl

/-- Without wrap-around the computed percentage is the round-half-up quotient. -/
theorem percent_of_eq (n total : Nat) (hrep : n * 100 + total / 2 < size_mod) :
    percent_of n total = (n * 100 + total / 2) / total := by
  unfold percent_of
  rw [wrap_of_lt (show n * 100 < size_mod by omega), wrap_of_lt hrep]

/-- After `step(n)` the field `progress_current` is below 100 if it was before. -/
theorem step_current_lt_100 (env : Env) (n : Nat) (s : State) (h : s.progress_current < 100) :
    (step env n s).state.progress_current < 100 := by
  cases hi : s.progress_idle
  · cases hs : s.progress_stop
    · by_cases h0 : s.progress_total = 0
      · simpa [step, hi, hs, h0] using h
      · rw [step_of_running env n s hi hs (Nat.pos_of_ne_zero h0)]
        by_cases h1 : n > s.progress_total
        · rw [if_pos h1]
          exact h
        · rw [if_neg h1]
          by_cases h2 : n = s.progress_total
          · rw [if_pos h2]
            show (0 : Nat) < 100
            decide
          · rw [if_neg h2]
            by_cases h3 : percent_of n s.progress_total = s.progress_current
            · rw [if_pos h3]
              exact h
            · rw [if_neg h3]
              by_cases h4 : percent_of n s.progress_total = 100
              · rw [if_pos h4]
                show (0 : Nat) < 100
                decide
              · rw [if_neg h4]
                have := percent_of_le_100 n s.progress_total (by omega)
                show percent_of n s.progress_total < 100
                omega
    · simpa [step, hi, hs] using h
  · simpa [step, hi] using h

/-- Every public operation keeps `progress_current` below 100. -/
theorem call_current_lt_100 (env : Env) (c : Call) (s : State) (h : s.progress_current < 100) :
    (c.run env s).state.progress_current < 100 := by
  cases c with
  | start text total =>
    by_cases h0 : total = 0
    · simpa [Call.run, start, h0] using h
    · simp only [Call.run]
      rw [start_of_pos env text total s (Nat.pos_of_ne_zero h0)]
      show (0 : Nat) < 100
      decide
  | step n => exact step_current_lt_100 env n s h
  | step_inc =>
    simp only [Call.run, step_inc]
    split
    · exact h
    · split
      · exact h
      · exact step_current_lt_100 env _ _ h
  | stop =>
    simp only [Call.run]
    cases hi : s.progress_idle
    · cases hs : s.progress_stop
      · rw [stop_of_running env s hi hs]
        show (0 : Nat) < 100
        decide
      · rw [stop_of_idle_or_stopped env s (Or.inr hs)]
        exact h
    · rw [stop_of_idle_or_stopped env s (Or.inl hi)]
      exact h
  | clear =>
    show (0 : Nat) < 100
    decide
  | idle set => exact h

/-- In every reachable state `progress_current` is below 100. -/
theorem reachable_current_lt_100 (s : State) (h : Reachable s) : s.progress_current < 100 := by
  induction h with
  | initial => decide
  | call env c s _ ih => exact call_current_lt_100 env c s ih

/-- Once stopped, `step(n)` calls leave the globals as they are. -/
theorem step_states_of_stopped (calls : List (Env × Nat)) (s : State)
    (hs : s.progress_stop = true) : List.Chain percent_kept s (step_states calls s) := by
  induction calls with
  | nil => exact List.Chain.nil
  | cons c r ih =>
    obtain ⟨e, n⟩ := c
    have h1 : step e n s = { state := s, out := [], err := none } := by
      cases hi : s.progress_idle <;> simp [step, hs, hi]
    simp only [step_states, h1]
    exact List.Chain.cons (fun h => absurd (hs.symm.trans h) (by decide)) ih

/-- Once stopped, `step()` calls leave the globals as they are. -/
theorem step_inc_states_of_stopped (envs : List Env) (s : State)
    (hs : s.progress_stop = true) : List.Chain percent_kept s (step_inc_states envs s) := by
  induction envs with
  | nil => exact List.Chain.nil
  | cons e r ih =>
    have h1 : step_inc e s = { state := s, out := [], err := none } := by
      cases hi : s.progress_idle <;> simp [step_inc, hs, hi]
    simp only [step_inc_states, h1]
    exact List.Chain.cons (fun h => absurd (hs.symm.trans h) (by decide)) ih

/-- Calls `step(n)` with non-decreasing arguments, from a running session whose percentage is
the rounded one of a step `k` not above the arguments. -/
theorem step_states_of_running (total : Nat) (ht : 0 < total)
    (hrep : total * 100 + total / 2 < size_mod) :
    ∀ (calls : List (Env × Nat)) (k : Nat) (s : State),
      s.progress_idle = false → s.progress_stop = false → s.progress_total = total →
      s.progress_current = (k * 100 + total / 2) / total →
      List.Pairwise (· ≤ ·) (k :: calls.map Prod.snd) →
      List.Chain percent_kept s (step_states calls s) := by
  intro calls
  induction calls with
  | nil =>
    intro k s _ _ _ _ _
    exact List.Chain.nil
  | cons c r ih =>
    intro k s hi hs htot hc hpw
    obtain ⟨e, n⟩ := c
    simp only [List.map_cons, List.pairwise_cons] at hpw
    obtain ⟨hk, hn, hr⟩ := hpw
    have hkn : k ≤ n := hk n (List.mem_cons_self _ _)
    have hkr : ∀ a ∈ r.map Prod.snd, k ≤ a := fun a ha => hk a (List.mem_cons_of_mem _ ha)
    have hrun := step_of_running e n s hi hs (by omega)
    simp only [step_states]
    by_cases h1 : n > s.progress_total
    · rw [if_pos h1] at hrun
      rw [hrun]
      exact List.Chain.cons (fun _ => le_refl _)
        (ih k s hi hs htot hc (List.pairwise_cons.mpr ⟨hkr, hr⟩))
    · rw [if_neg h1] at hrun
      have hstopped : ∀ t : State, t.progress_stop = true →
          List.Chain percent_kept s (t :: step_states r t) := fun t h =>
        List.Chain.cons (fun h2 => absurd (h.symm.trans h2) (by decide)) (step_states_of_stopped r t h)
      by_cases h2 : n = s.progress_total
      · rw [if_pos h2] at hrun
        rw [hrun]
        exact hstopped _ rfl
      · rw [if_neg h2] at hrun
        have hp : percent_of n s.progress_total = (n * 100 + total / 2) / total := by
          rw [htot]
          exact percent_of_eq n total (by nlinarith)
        have hmono : (k * 100 + total / 2) / total ≤ (n * 100 + total / 2) / total :=
          Nat.div_le_div_right (by omega)
        by_cases h3 : percent_of n s.progress_total = s.progress_current
        · rw [if_pos h3] at hrun
          rw [hrun]
          exact List.Chain.cons (fun _ => le_refl _)
            (ih n s hi hs htot (by rw [← h3, hp]) (List.pairwise_cons.mpr ⟨hn, hr⟩))
        · rw [if_neg h3] at hrun
          by_cases h4 : percent_of n s.progress_total = 100
          · rw [if_pos h4] at hrun
            rw [hrun]
            exact hstopped _ rfl
          · rw [if_neg h4] at hrun
            rw [hrun]
            refine List.Chain.cons (fun _ => ?_)
              (ih n _ hi hs htot hp (List.pairwise_cons.mpr ⟨hn, hr⟩))
            show s.progress_current ≤ percent_of n s.progress_total
            rw [hp, hc]
            exact hmono

/-- Calls `step()` from a running session of `n` units after `k` of them. -/
theorem step_inc_states_of_running (n : Nat) (hrep : n * 100 + n / 2 < size_mod) :
    ∀ (envs : List Env) (k : Nat) (s : State), Running n k s → k < n →
      List.Chain percent_kept s (step_inc_states envs s) := by
  intro envs
  induction envs with
  | nil =>
    intro k s _ _
    exact List.Chain.nil
  | cons e r ih =>
    intro k s hR hk
    obtain ⟨-, hcase⟩ := step_inc_of_running e n k s hR hk hrep
    simp only [step_inc_states]
    rcases hcase with ⟨hR1, hk1, -, hle, -, -⟩ | ⟨hst, -, -⟩
    · exact List.Chain.cons (fun _ => hle) (ih (k + 1) _ hR1 hk1)
    · have hstop : (step_inc e s).state.progress_stop = true := by
        rw [hst]
        rfl
      exact List.Chain.cons (fun h => absurd (hstop.symm.trans h) (by decide))
        (step_inc_states_of_stopped r _ hstop)

/-- On a count that is not negative `std::to_string` gives the decimal digits. -/
theorem to_string_nat (n : Nat) : to_string (n : Int) = decimal n := rfl

/-- A number below 10 has one decimal digit. -/
theorem decimal_length_lt_10 (n : Nat) (h : n < 10) : (decimal n).length = 1 := by
  interval_cases n <;> rfl

/-- The digit loop never shortens its accumulator. -/
theorem toDigitsCore_length_pos (f n : Nat) (ds : List Char) :
    ds.length ≤ (Nat.toDigitsCore 10 f n ds).length := by
  induction f generalizing n ds with
  | zero => simp [Nat.toDigitsCore]
  | succ f ih =>
    simp only [Nat.toDigitsCore]
    split
    · simp
    · exact le_trans (by simp) (ih _ _)

/-- With fuel left the digit loop adds at least one digit. -/
theorem toDigitsCore_length_succ (f n : Nat) (ds : List Char) :
    ds.length + 1 ≤ (Nat.toDigitsCore 10 (f + 1) n ds).length := by
  rw [Nat.toDigitsCore]
  split
  · simp
  · exact le_trans (by simp) (toDigitsCore_length_pos _ _ _)

/-- A number from 10 on has at least two decimal digits. -/
theorem decimal_length_ge_10 (n : Nat) (h : 10 ≤ n) : 2 ≤ (decimal n).length := by
  have h1 : n / 10 ≠ 0 := by omega
  obtain ⟨m, rfl⟩ : ∃ m, n = m + 1 := ⟨n - 1, by omega⟩
  show 2 ≤ (Nat.toDigitsCore 10 (m + 1 + 1) (m + 1) []).length
  rw [Nat.toDigitsCore]
  simp only [h1, if_false]
  exact toDigitsCore_length_succ m ((m + 1) / 10) [((m + 1) % 10).digitChar]

/-- The code's zero prefix is zero-padding to two digits. -/
theorem zero_pad_eq (n : Nat) :
    (if (n : Int) < 10 then ['0'] else []) ++ to_string (n : Int) = zero_pad 2 (decimal n) := by
  rw [to_string_nat]
  unfold zero_pad
  by_cases h : n < 10
  · rw [if_pos (by omega), decimal_length_lt_10 n h]
    rfl
  · rw [if_neg (by omega)]
    have := decimal_length_ge_10 n (by omega)
    rw [Nat.sub_eq_zero_of_le this]
    rfl

/-- The code's duration text is the specified one, for every elapsed time. -/
theorem format_duration_eq_spec (d : Nat) : format_duration (d : Int) = duration_text_spec d := by
  have e1 : (d : Int).tdiv 3600000000 = ((d / 3600000000 : Nat) : Int) := rfl
  have e2 : ((d : Int).tmod 3600000000).tdiv 60000000
      = ((d % 3600000000 / 60000000 : Nat) : Int) := rfl
  have e3 : ((d : Int).tmod 60000000).tdiv 1000000 = ((d % 60000000 / 1000000 : Nat) : Int) := rfl
  have e4 : ((d : Int).tmod 1000000).tdiv 1000 = ((d % 1000000 / 1000 : Nat) : Int) := rfl
  have e5 : (d : Int).tmod 1000 = ((d % 1000 : Nat) : Int) := rfl
  have a2 : d % 3600000000 / 60000000 = d / 60000000 % 60 := by omega
  have a3 : d % 60000000 / 1000000 = d / 1000000 % 60 := by omega
  unfold format_duration duration_text_spec
  simp only [e1, e2, e3, e4, e5]
  by_cases h1 : d ≥ 60000000
  · have c : ((d / 3600000000 : Nat) : Int) > 0 ∨ ((d % 3600000000 / 60000000 : Nat) : Int) > 0 := by
      omega
    rw [if_pos c, if_pos h1, zero_pad_eq, zero_pad_eq, zero_pad_eq, a2, a3]
    simp only [List.append_assoc]
  · have c : ¬ (((d / 3600000000 : Nat) : Int) > 0
        ∨ ((d % 3600000000 / 60000000 : Nat) : Int) > 0) := by omega
    rw [if_neg c, if_neg h1]
    by_cases h2 : d ≥ 1000000
    · rw [if_pos (show ((d % 60000000 / 1000000 : Nat) : Int) > 0 by omega), if_pos h2,
        to_string_nat, Nat.mod_eq_of_lt (show d < 60000000 by omega)]
    · rw [if_neg (show ¬ ((d % 60000000 / 1000000 : Nat) : Int) > 0 by omega), if_neg h2]
      by_cases h3 : d ≥ 1000
      · rw [if_pos (show ((d % 1000000 / 1000 : Nat) : Int) > 0 by omega), if_pos h3,
          to_string_nat, Nat.mod_eq_of_lt (show d < 1000000 by omega)]
      · rw [if_neg (show ¬ ((d % 1000000 / 1000 : Nat) : Int) > 0 by omega), if_neg h3,
          to_string_nat, Nat.mod_eq_of_lt (show d < 1000 by omega)]

/-- Below 100 the zero-padded decimal has exactly two characters. -/
theorem zero_pad_length_lt_100 (n : Nat) (h : n < 100) : (zero_pad 2 (decimal n)).length = 2 := by
  have hle : (decimal n).length ≤ 2 := Nat.repr_length n 2 (by decide) (by omega)
  simp only [zero_pad, List.length_append, List.length_replicate]
  omega

/-- For a percentage up to 100 the fill position is within the bar. -/
theorem fill_pos_le_bar_width : ∀ p, p < 101 → fill_pos p ≤ bar_width := by
  decide

set_option maxRecDepth 8000 in
/-- Away from 29 and 57 the binary64 fill position is the half-up rounding of `p / 2`. -/
theorem fill_pos_eq_half_up : ∀ p, p < 101 → p ≠ 29 → p ≠ 57 → fill_pos p = (p + 1) / 2 := by
  decide

/-- The loop of `print` writes `pos` times `'='`, one `'>'` unless the bar is full, then spaces. -/
theorem glyphs_eq (pos : Nat) (h : pos ≤ bar_width) :
    glyphs pos
      = List.replicate pos '=' ++ (if pos < bar_width then ['>'] else [])
        ++ List.replicate (bar_width - 1 - pos) ' ' := by
  have hb : bar_width = 50 := rfl
  rw [hb] at h
  interval_cases pos <;> decide

/-! ## Claims -/

/-- C1, as stated, fails: after `start(label, 3)` and `step(3)` the field `progress_current`
is 0, while the round-half-up quotient `(3*100 + 3/2) / 3` is 100. -/
theorem C1_counterexample :
    (step ⟨false, 0⟩ 3 (start ⟨false, 0⟩ [] 3 State.initial).state).state.progress_current = 0
      ∧ (3 * 100 + 3 / 2) / 3 = 100 := by
  decide

/-- C1, amended: for `total > 0` and `step ≤ total` with `step*100 + total/2` representable in
`size_t`, after `start(label, total)` on a non-idle session and `step(step)` neither call has
thrown, and `progress_current` equals the round-half-up quotient `(step*100 + total/2) / total`
when that quotient is below 100; when the quotient is 100 the automatic stop has run and
`progress_current` is 0. -/
theorem C1_current_percent (env1 env2 : Env) (text : List Char) (total n : Nat) (s : State)
    (hidle : s.progress_idle = false) (ht : 0 < total) (hn : n ≤ total)
    (hrep : n * 100 + total / 2 < size_mod) :
    (start env1 text total s).err = none
      ∧ (step env2 n (start env1 text total s).state).err = none
      ∧ ((n * 100 + total / 2) / total < 100 →
          (step env2 n (start env1 text total s).state).state.progress_current
              = (n * 100 + total / 2) / total
            ∧ (step env2 n (start env1 text total s).state).state.progress_stop = false)
      ∧ ((n * 100 + total / 2) / total = 100 →
          (step env2 n (start env1 text total s).state).state.progress_current = 0
            ∧ (step env2 n (start env1 text total s).state).state.progress_stop = true) := by
  obtain ⟨he, hi, hs, htot, -, hc⟩ := start_ok env1 text total s ht
  generalize start env1 text total s = r at he hi hs htot hc ⊢
  rw [hidle] at hi
  have hw : percent_of n total = (n * 100 + total / 2) / total := by
    unfold percent_of
    rw [wrap_of_lt (show n * 100 < size_mod by omega), wrap_of_lt hrep]
  have hq : (total * 100 + total / 2) / total = 100 := by
    have h2 : total / 2 < total := Nat.div_lt_self ht (by decide)
    rw [Nat.mul_comm, Nat.add_comm, Nat.add_mul_div_right _ _ ht, Nat.div_eq_of_lt h2]
  have hgt : ¬ n > total := by omega
  rw [step_of_running env2 n r.state hi hs (by omega), htot, hc, hw]
  simp only [hgt, if_false]
  refine ⟨he, ?_, ?_, ?_⟩
  · split_ifs <;> rfl
  · intro hlt
    have hne : n ≠ total := by
      rintro rfl
      omega
    have h100 : (n * 100 + total / 2) / total ≠ 100 := by omega
    simp only [hne, h100, if_false]
    split_ifs with h1
    · exact ⟨by rw [hc]; exact h1.symm, hs⟩
    · exact ⟨rfl, hs⟩
  · intro heq
    simp only [heq, if_true]
    split_ifs <;> simp_all [stopped_state]

/-- Witness of C1 (amended) at `total = 3`: `step = 1` gives 33 and `step = 2` gives 67. -/
theorem C1_current_percent_witness :
    (step ⟨true, 9⟩ 1 (start ⟨true, 5⟩ "Copy".toList 3 State.initial).state).state.progress_current
        = 33
      ∧ (step ⟨true, 9⟩ 2 (start ⟨true, 5⟩ "Copy".toList 3 State.initial).state).state.progress_current
        = 67 :=
  ⟨((C1_current_percent ⟨true, 5⟩ ⟨true, 9⟩ "Copy".toList 3 1 State.initial rfl (by decide)
      (by decide) (by decide)).2.2.1 (by decide)).1,
   ((C1_current_percent ⟨true, 5⟩ ⟨true, 9⟩ "Copy".toList 3 2 State.initial rfl (by decide)
      (by decide) (by decide)).2.2.1 (by decide)).1⟩

/-- C2: for every label, every `n > 0` with `n*100 + n/2` representable in `size_t`, every
prior non-idle state and all clock readings, `start(label, n)` followed by `n` calls of
`step()` throws nothing; `start` renders 0 once, the percentages rendered by the `step()` calls
are strictly increasing (also when preceded by the initial 0), end in 100 and are without
repetition; one summary line is written in all; the session is stopped afterwards. For `n = 4`
the `step()` calls render 25, 50, 75, 100, and the session stops at the fourth call, not
earlier. -/
theorem C2_end_to_end (env0 : Env) (envs : List Env) (text : List Char) (n : Nat) (s : State)
    (hidle : s.progress_idle = false) (hn : 0 < n) (hlen : envs.length = n)
    (hrep : n * 100 + n / 2 < size_mod) :
    (start env0 text n s).err = none
      ∧ rendered (start env0 text n s).out = [0]
      ∧ (step_inc_run envs (start env0 text n s).state).err = none
      ∧ List.Sorted (· < ·) (0 :: rendered (step_inc_run envs (start env0 text n s).state).out)
      ∧ (rendered (step_inc_run envs (start env0 text n s).state).out).getLast? = some 100
      ∧ (0 :: rendered (step_inc_run envs (start env0 text n s).state).out).Nodup
      ∧ (summaries ((start env0 text n s).out
            ++ (step_inc_run envs (start env0 text n s).state).out)).length = 1
      ∧ (step_inc_run envs (start env0 text n s).state).state.progress_stop = true
      ∧ (n = 4 →
          rendered (step_inc_run envs (start env0 text n s).state).out = [25, 50, 75, 100]
            ∧ (step_inc_run (envs.take 3) (start env0 text n s).state).state.progress_stop = false
            ∧ rendered (step_inc_run (envs.take 3) (start env0 text n s).state).out
                = [25, 50, 75]) := by
  obtain ⟨he, hi, hs, htot, hst, hc⟩ := start_ok env0 text n s hn
  have hout : rendered (start env0 text n s).out = [0]
      ∧ summaries (start env0 text n s).out = [] := by
    rw [start_of_pos env0 text n s hn]
    cases hty : env0.tty <;> simp [hidle, rendered, summaries]
  rw [hidle] at hi
  have hR : Running n 0 (start env0 text n s).state := by
    refine ⟨hi, hs, htot, hst, ?_, by rw [hc]; decide⟩
    rw [hc, Nat.zero_mul, Nat.zero_add, Nat.div_div_eq_div_mul, Nat.mul_comm]
    exact (Nat.div_eq_of_lt (by omega)).symm
  obtain ⟨re, rst, rpw, rlast, rsum⟩ :=
    step_inc_run_of_running n hrep envs 0 _ hR hn (by omega)
  rw [hc] at rpw
  refine ⟨he, hout.1, re, rpw, rlast, List.Sorted.nodup rpw, ?_, by rw [rst]; rfl, ?_⟩
  · rw [summaries_append, hout.2, List.nil_append]
    exact rsum
  · intro h4
    subst h4
    generalize start env0 text 4 s = r at hi hs htot hst hc
    match envs, hlen with
    | [e1, e2, e3, e4], _ =>
      simp [step_inc_run, Outcome.and_then, step_inc, step, stop, print, show_cursor, clear,
        rendered, wrap, size_mod, hi, hs, htot, hst, hc]
      cases e4.tty <;> simp [rendered]

/-- Witness of C2: the session `start("Copy", 4)` followed by four `step()` calls. -/
theorem C2_end_to_end_witness :
    rendered (step_inc_run [⟨true, 10⟩, ⟨true, 20⟩, ⟨true, 30⟩, ⟨true, 40⟩]
        (start ⟨true, 0⟩ "Copy".toList 4 State.initial).state).out = [25, 50, 75, 100] :=
  ((C2_end_to_end ⟨true, 0⟩ [⟨true, 10⟩, ⟨true, 20⟩, ⟨true, 30⟩, ⟨true, 40⟩] "Copy".toList 4
      State.initial rfl (by decide) rfl (by decide)).2.2.2.2.2.2.2.2 rfl).1

/-- C3: for every state with `progress_total > 0`, idle or not, stopped or not,
`step(progress_total)` and `stop()` give, for the same clock reading, the same state, the same
output and the same (absent) error; and when the session was neither idle nor stopped the
result is the cleared state: empty label, total 0, step counter 0, percentage 0. -/
theorem C3_step_total_eq_stop (env : Env) (s : State) (ht : 0 < s.progress_total) :
    step env s.progress_total s = stop env s
      ∧ (s.progress_idle = false → s.progress_stop = false →
          (step env s.progress_total s).state.progress_text = []
            ∧ (step env s.progress_total s).state.progress_total = 0
            ∧ (step env s.progress_total s).state.progress_step = 0
            ∧ (step env s.progress_total s).state.progress_current = 0) := by
  have h0 : s.progress_total ≠ 0 := Nat.pos_iff_ne_zero.mp ht
  have heq : step env s.progress_total s = stop env s := by
    unfold step stop
    cases s.progress_idle <;> cases s.progress_stop <;> simp [h0]
  refine ⟨heq, fun hi hs => ?_⟩
  rw [heq, stop_of_running env s hi hs]
  simp [stopped_state]

/-- Witness of C3 on a running session of 4 units at step 2. -/
theorem C3_step_total_eq_stop_witness :
    step ⟨true, 7000⟩ 4 ⟨false, false, "Copy".toList, 4, 2, 50, 0⟩
        = stop ⟨true, 7000⟩ ⟨false, false, "Copy".toList, 4, 2, 50, 0⟩
      ∧ (step ⟨true, 7000⟩ 4 ⟨false, false, "Copy".toList, 4, 2, 50, 0⟩).state.progress_total = 0 :=
  have h := C3_step_total_eq_stop ⟨true, 7000⟩ ⟨false, false, "Copy".toList, 4, 2, 50, 0⟩
    (by decide)
  ⟨h.1, (h.2 rfl rfl).2.1⟩

/-- C4: on a state that is neither idle nor stopped `stop()` writes one `print` line at 100,
then the summary `"  ->  "`, the formatted elapsed time and a newline (and then the cursor
escape sequence when `stdout` is a terminal), throws nothing, and leaves label empty, total 0,
step counter 0, percentage 0, `progress_stop` true and `progress_idle` as it was; on a state that
is idle or stopped it writes nothing and leaves the state as it was. -/
theorem C4_stop_postcondition (env : Env) (s : State) :
    (s.progress_idle = false → s.progress_stop = false →
        (stop env s).out
            = [Event.render s.progress_text 100 env.tty,
               Event.summary (format_duration ((env.now - s.progress_time).tdiv 1000))]
              ++ (if env.tty then [Event.cursor_show] else [])
          ∧ rendered (stop env s).out = [100]
          ∧ (summaries (stop env s).out).length = 1
          ∧ (stop env s).err = none
          ∧ (stop env s).state.progress_text = []
          ∧ (stop env s).state.progress_total = 0
          ∧ (stop env s).state.progress_step = 0
          ∧ (stop env s).state.progress_current = 0
          ∧ (stop env s).state.progress_stop = true
          ∧ (stop env s).state.progress_idle = s.progress_idle)
      ∧ (s.progress_idle = true ∨ s.progress_stop = true →
          (stop env s).out = [] ∧ (stop env s).state = s ∧ (stop env s).err = none) := by
  constructor
  · intro hi hs
    rw [stop_of_running env s hi hs]
    cases h : env.tty <;> simp [stopped_state, stop_output, stop_duration, rendered, summaries, h]
  · intro h
    rw [stop_of_idle_or_stopped env s h]
    exact ⟨rfl, rfl, rfl⟩

/-- Witness of C4: a running session stopped 65 seconds after its start, and a stopped one. -/
theorem C4_stop_postcondition_witness :
    (stop ⟨false, 65000000000⟩ ⟨false, false, "Copy".toList, 4, 2, 50, 0⟩).out
        = [Event.render "Copy".toList 100 false, Event.summary "00:01:05".toList]
      ∧ (stop ⟨false, 65000000000⟩ ⟨false, true, [], 0, 0, 0, 0⟩).out = [] :=
  ⟨((C4_stop_postcondition ⟨false, 65000000000⟩ ⟨false, false, "Copy".toList, 4, 2, 50, 0⟩).1
      rfl rfl).1.trans (by decide),
   ((C4_stop_postcondition ⟨false, 65000000000⟩ ⟨false, true, [], 0, 0, 0, 0⟩).2
      (Or.inr rfl)).1⟩

/-- C5: `stop()` is idempotent: for every state and every two clock readings, a second `stop()`
right after a first one leaves the state of the first, writes nothing and throws nothing. -/
theorem C5_stop_idempotent (env1 env2 : Env) (s : State) :
    (stop env2 (stop env1 s).state).state = (stop env1 s).state
      ∧ (stop env2 (stop env1 s).state).out = []
      ∧ (stop env2 (stop env1 s).state).err = none := by
  have h : (stop env1 s).state.progress_idle = true ∨ (stop env1 s).state.progress_stop = true := by
    unfold stop
    cases hi : s.progress_idle <;> cases hs : s.progress_stop <;> simp [hi, hs, clear]
  rw [stop_of_idle_or_stopped env2 _ h]
  exact ⟨rfl, rfl, rfl⟩

/-- C6: `start(label, total)` throws the zero-total error if and only if `total == 0`, for every
label and prior state, and throws nothing otherwise; when it throws it has written nothing
and every global is as before. -/
theorem C6_start_zero_total (env : Env) (text : List Char) (total : Nat) (s : State) :
    ((start env text total s).err = some Error.zero_total ↔ total = 0)
      ∧ ((start env text total s).err = none ↔ total ≠ 0)
      ∧ (total = 0 → (start env text total s).out = [] ∧ (start env text total s).state = s) := by
  by_cases h : total = 0
  · simp [start, h]
  · simp [start, h]

/-- Witness of C6: `start("", 0)` on the cleared state throws and leaves it cleared. -/
theorem C6_start_zero_total_witness :
    (start ⟨true, 3⟩ [] 0 (clear State.initial)).err = some Error.zero_total
      ∧ (start ⟨true, 3⟩ [] 0 (clear State.initial)).out = []
      ∧ (start ⟨true, 3⟩ [] 0 (clear State.initial)).state = clear State.initial :=
  ⟨(C6_start_zero_total ⟨true, 3⟩ [] 0 (clear State.initial)).1.mpr rfl,
   ((C6_start_zero_total ⟨true, 3⟩ [] 0 (clear State.initial)).2.2 rfl).1,
   ((C6_start_zero_total ⟨true, 3⟩ [] 0 (clear State.initial)).2.2 rfl).2⟩

/-- C7: `step(n)` and `step()` throw the not-started error exactly when the session is neither
idle nor stopped and `progress_total == 0`, as on the initial state; in every other state, for
every `n`, they throw nothing. -/
theorem C7_not_started (env : Env) (n : Nat) (s : State) :
    ((step env n s).err = some Error.not_started
        ↔ (s.progress_idle = false ∧ s.progress_stop = false ∧ s.progress_total = 0))
      ∧ ((step_inc env s).err = some Error.not_started
        ↔ (s.progress_idle = false ∧ s.progress_stop = false ∧ s.progress_total = 0))
      ∧ (¬ (s.progress_idle = false ∧ s.progress_stop = false ∧ s.progress_total = 0) →
          (step env n s).err = none ∧ (step_inc env s).err = none)
      ∧ (step env n State.initial).err = some Error.not_started
      ∧ (step_inc env State.initial).err = some Error.not_started := by
  have key : ∀ (m : Nat) (t : State),
      ((step env m t).err = some Error.not_started
          ↔ (t.progress_idle = false ∧ t.progress_stop = false ∧ t.progress_total = 0))
        ∧ (¬ (t.progress_idle = false ∧ t.progress_stop = false ∧ t.progress_total = 0) →
            (step env m t).err = none) := by
    intro m t
    cases hi : t.progress_idle
    · cases hs : t.progress_stop
      · by_cases h0 : t.progress_total = 0
        · simp [step, hi, hs, h0]
        · rw [step_of_running env m t hi hs (Nat.pos_of_ne_zero h0)]
          simp only [h0, and_false, iff_false, not_false_eq_true, true_implies]
          split_ifs <;> simp
      · simp [step, hi, hs]
    · simp [step, hi]
  have key_inc : ∀ t : State,
      ((step_inc env t).err = some Error.not_started
          ↔ (t.progress_idle = false ∧ t.progress_stop = false ∧ t.progress_total = 0))
        ∧ (¬ (t.progress_idle = false ∧ t.progress_stop = false ∧ t.progress_total = 0) →
            (step_inc env t).err = none) := by
    intro t
    cases hi : t.progress_idle
    · cases hs : t.progress_stop
      · have h := key (wrap (t.progress_step + 1))
          { t with progress_step := wrap (t.progress_step + 1) }
        simp only [hi, hs] at h
        simpa [step_inc, hi, hs] using h
      · simp [step_inc, hi, hs]
    · simp [step_inc, hi]
  exact ⟨(key n s).1, (key_inc s).1, fun h => ⟨(key n s).2 h, (key_inc s).2 h⟩,
    (key n State.initial).1.mpr ⟨rfl, rfl, rfl⟩, (key_inc State.initial).1.mpr ⟨rfl, rfl, rfl⟩⟩

/-- Witness of C7: no error on a stopped session whose total is 0, and none on a running one. -/
theorem C7_not_started_witness :
    (step ⟨true, 1⟩ 9 ⟨false, true, [], 0, 0, 0, 0⟩).err = none
      ∧ (step_inc ⟨true, 1⟩ ⟨false, false, "Copy".toList, 4, 1, 25, 0⟩).err = none :=
  ⟨((C7_not_started ⟨true, 1⟩ 9 ⟨false, true, [], 0, 0, 0, 0⟩).2.2.1 (by decide)).1,
   ((C7_not_started ⟨true, 1⟩ 9 ⟨false, false, "Copy".toList, 4, 1, 25, 0⟩).2.2.1
      (by decide)).2⟩

/-- C8, the failing input: `step()` on the initial state throws the not-started error and leaves
`progress_step` at 1 instead of 0, so the state after the failed call differs from the state
before it. -/
theorem C8_step_inc_failure_changes_state :
    (step_inc ⟨false, 0⟩ State.initial).err = some Error.not_started
      ∧ State.initial.progress_step = 0
      ∧ (step_inc ⟨false, 0⟩ State.initial).state.progress_step = 1
      ∧ (step_inc ⟨false, 0⟩ State.initial).state ≠ State.initial := by
  decide

/-- The sibling paths: a failed `start` and a failed `step(n)` leave the state as it was and
write nothing. -/
theorem start_and_step_failure_atomic (env : Env) (text : List Char) (total n : Nat) (s : State) :
    ((start env text total s).err ≠ none →
        (start env text total s).state = s ∧ (start env text total s).out = [])
      ∧ ((step env n s).err ≠ none → (step env n s).state = s ∧ (step env n s).out = []) := by
  constructor
  · by_cases h : total = 0 <;> simp [start, h]
  · cases hi : s.progress_idle
    · cases hs : s.progress_stop
      · by_cases h0 : s.progress_total = 0
        · simp [step, hi, hs, h0]
        · rw [step_of_running env n s hi hs (Nat.pos_of_ne_zero h0)]
          split_ifs <;> simp
      · simp [step, hi, hs]
    · simp [step, hi]

/-- A failed `step()` writes nothing and changes no global other than `progress_step`, which
it has incremented. -/
theorem step_inc_failure_effect (env : Env) (s : State) (h : (step_inc env s).err ≠ none) :
    (step_inc env s).state = { s with progress_step := wrap (s.progress_step + 1) }
      ∧ (step_inc env s).out = [] := by
  cases hi : s.progress_idle
  · cases hs : s.progress_stop
    · have h2 := (start_and_step_failure_atomic env [] 0 (wrap (s.progress_step + 1))
        { s with progress_step := wrap (s.progress_step + 1) }).2
      have e : step_inc env s = step env (wrap (s.progress_step + 1))
          { s with progress_step := wrap (s.progress_step + 1) } := by
        simp [step_inc, hi, hs]
      rw [e] at h ⊢
      have h3 := h2 h
      simp only [hi, hs] at h3 ⊢
      exact h3
    · simp [step_inc, hi, hs] at h
  · simp [step_inc, hi] at h

/-- C9: while `progress_idle` or `progress_stop` is true, whatever the total, `step(n)` and
`step()` throw nothing, write nothing and leave every global, `progress_step` included, as it
was; `print` writes nothing either. -/
theorem C9_idle_or_stopped_noop (env : Env) (n complete : Nat) (s : State)
    (h : s.progress_idle = true ∨ s.progress_stop = true) :
    step env n s = { state := s, out := [], err := none }
      ∧ step_inc env s = { state := s, out := [], err := none }
      ∧ print env complete s = [] := by
  rcases h with h | h
  · simp [step, step_inc, print, h]
  · cases hi : s.progress_idle <;> simp [step, step_inc, print, h, hi]

/-- Witness of C9 on an idle session whose total is 0 and whose step counter is 3. -/
theorem C9_idle_or_stopped_noop_witness :
    step ⟨true, 1⟩ 7 ⟨true, false, [], 0, 3, 0, 0⟩
        = { state := ⟨true, false, [], 0, 3, 0, 0⟩, out := [], err := none }
      ∧ step_inc ⟨true, 1⟩ ⟨true, false, [], 0, 3, 0, 0⟩
        = { state := ⟨true, false, [], 0, 3, 0, 0⟩, out := [], err := none }
      ∧ print ⟨true, 1⟩ 40 ⟨true, false, [], 0, 3, 0, 0⟩ = [] :=
  C9_idle_or_stopped_noop ⟨true, 1⟩ 7 40 ⟨true, false, [], 0, 3, 0, 0⟩ (Or.inl rfl)

/-- C10: on a running session (not idle, not stopped, `progress_total > 0`) a `step(n)` with
`n > progress_total` throws nothing, writes nothing and leaves every global as it was, so the
session is not stopped; among the steps `n ≥ progress_total` the session is stopped afterwards
exactly when `n == progress_total`. -/
theorem C10_overshoot_ignored (env : Env) (n : Nat) (s : State) (hi : s.progress_idle = false)
    (hs : s.progress_stop = false) (ht : 0 < s.progress_total) :
    (s.progress_total < n → step env n s = { state := s, out := [], err := none })
      ∧ (s.progress_total ≤ n →
          ((step env n s).state.progress_stop = true ↔ n = s.progress_total)) := by
  rw [step_of_running env n s hi hs ht]
  constructor
  · intro h
    simp [h]
  · intro h
    by_cases hgt : n > s.progress_total
    · have hne : n ≠ s.progress_total := by omega
      simp [hgt, hne, hs]
    · have heq : n = s.progress_total := by omega
      simp [heq, stopped_state]

/-- Witness of C10 on a session of 4 units: `step(5)` is dropped, `step(4)` stops. -/
theorem C10_overshoot_ignored_witness :
    step ⟨true, 1⟩ 5 ⟨false, false, "Copy".toList, 4, 1, 25, 0⟩
        = { state := ⟨false, false, "Copy".toList, 4, 1, 25, 0⟩, out := [], err := none }
      ∧ (step ⟨true, 1⟩ 4 ⟨false, false, "Copy".toList, 4, 1, 25, 0⟩).state.progress_stop
        = true :=
  ⟨(C10_overshoot_ignored ⟨true, 1⟩ 5 ⟨false, false, "Copy".toList, 4, 1, 25, 0⟩ rfl rfl
      (by decide)).1 (by decide),
   ((C10_overshoot_ignored ⟨true, 1⟩ 4 ⟨false, false, "Copy".toList, 4, 1, 25, 0⟩ rfl rfl
      (by decide)).2 (by decide)).mpr rfl⟩

/-- C11: in a running session a `step(n1)` with `n1 < progress_total` writes a `print` line only
when the percentage it computes differs from `progress_current`; and when a following `step(n2)`
with `n2 < progress_total` computes the same percentage, the two calls together write at most
one `print` line, and the second call writes nothing, throws nothing and changes no global. -/
theorem C11_redraw_suppression (env1 env2 : Env) (n1 n2 : Nat) (s : State)
    (hi : s.progress_idle = false) (hs : s.progress_stop = false) (ht : 0 < s.progress_total)
    (h1 : n1 < s.progress_total) (h2 : n2 < s.progress_total) :
    (rendered (step env1 n1 s).out ≠ [] → percent_of n1 s.progress_total ≠ s.progress_current)
      ∧ (percent_of n1 s.progress_total = percent_of n2 s.progress_total →
          (rendered ((step env1 n1 s).out ++ (step env2 n2 (step env1 n1 s).state).out)).length ≤ 1
            ∧ step env2 n2 (step env1 n1 s).state
                = { state := (step env1 n1 s).state, out := [], err := none }) := by
  have hrun := step_of_running env1 n1 s hi hs ht
  rw [if_neg (show ¬ n1 > s.progress_total by omega), if_neg (show ¬ n1 = s.progress_total by omega)]
    at hrun
  by_cases hc : percent_of n1 s.progress_total = s.progress_current
  · rw [if_pos hc] at hrun
    rw [hrun]
    refine ⟨fun h => absurd rfl h, fun heq => ?_⟩
    have h2run := step_of_running env2 n2 s hi hs ht
    rw [if_neg (show ¬ n2 > s.progress_total by omega),
      if_neg (show ¬ n2 = s.progress_total by omega), if_pos (by rw [← heq]; exact hc)] at h2run
    simp only [h2run, List.append_nil]
    exact ⟨by simp [rendered], trivial⟩
  · rw [if_neg hc] at hrun
    refine ⟨fun _ => hc, fun heq => ?_⟩
    by_cases h100 : percent_of n1 s.progress_total = 100
    · rw [if_pos h100] at hrun
      rw [hrun]
      have hst : step env2 n2 (stopped_state s)
          = { state := stopped_state s, out := [], err := none } := by
        simp [step, stopped_state, hi]
      rw [hst, List.append_nil, rendered_stop_output]
      exact ⟨by simp, rfl⟩
    · rw [if_neg h100] at hrun
      rw [hrun]
      have h2run := step_of_running env2 n2
        { s with progress_current := percent_of n1 s.progress_total } hi hs ht
      rw [if_neg (show ¬ n2 > s.progress_total by omega),
        if_neg (show ¬ n2 = s.progress_total by omega), if_pos heq.symm] at h2run
      rw [h2run]
      exact ⟨by simp [rendered], rfl⟩

/-- Witness of C11 on a session of 200 units: `step(1)` and `step(2)` both compute 1. -/
theorem C11_redraw_suppression_witness :
    (rendered ((step ⟨true, 1⟩ 1 ⟨false, false, "Copy".toList, 200, 0, 0, 0⟩).out
        ++ (step ⟨true, 2⟩ 2
            (step ⟨true, 1⟩ 1 ⟨false, false, "Copy".toList, 200, 0, 0, 0⟩).state).out)).length ≤ 1
      ∧ step ⟨true, 2⟩ 2 (step ⟨true, 1⟩ 1 ⟨false, false, "Copy".toList, 200, 0, 0, 0⟩).state
        = { state := (step ⟨true, 1⟩ 1 ⟨false, false, "Copy".toList, 200, 0, 0, 0⟩).state
            out := [], err := none } :=
  (C11_redraw_suppression ⟨true, 1⟩ ⟨true, 2⟩ 1 2 ⟨false, false, "Copy".toList, 200, 0, 0, 0⟩
    rfl rfl (by decide) (by decide) (by decide)).2 (by decide)

/-- C12, as stated, fails: after `start(label, 10)` the call `step(5)` leaves `progress_current`
at 50 and the following `step(2)` lowers it to 20, the session running throughout. -/
theorem C12_counterexample :
    (step ⟨false, 1⟩ 5 (start ⟨false, 0⟩ [] 10 State.initial).state).state.progress_stop = false
      ∧ (step ⟨false, 1⟩ 5 (start ⟨false, 0⟩ [] 10 State.initial).state).state.progress_current
        = 50
      ∧ (step ⟨false, 2⟩ 2
          (step ⟨false, 1⟩ 5 (start ⟨false, 0⟩ [] 10 State.initial).state).state).state.progress_stop
        = false
      ∧ (step ⟨false, 2⟩ 2
          (step ⟨false, 1⟩ 5
            (start ⟨false, 0⟩ [] 10 State.initial).state).state).state.progress_current
        = 20 := by
  decide

/-- C12, amended: in a session started by `start(label, total)` on a non-idle state, with
`total*100 + total/2` representable in `size_t`, for every sequence of `step(n)` calls whose
arguments are non-decreasing, and for every sequence of `step()` calls, `progress_current` after
each call that leaves the session running is at least its value before the call. -/
theorem C12_percent_monotone (env : Env) (text : List Char) (total : Nat) (s : State)
    (calls : List (Env × Nat)) (envs : List Env)
    (hidle : s.progress_idle = false) (ht : 0 < total)
    (hrep : total * 100 + total / 2 < size_mod) :
    (List.Sorted (· ≤ ·) (calls.map Prod.snd) →
        List.Chain percent_kept (start env text total s).state
          (step_states calls (start env text total s).state))
      ∧ List.Chain percent_kept (start env text total s).state
          (step_inc_states envs (start env text total s).state) := by
  obtain ⟨-, hi, hs, htot, hst, hc⟩ := start_ok env text total s ht
  rw [hidle] at hi
  have hq : (start env text total s).state.progress_current = (0 * 100 + total / 2) / total := by
    rw [hc, Nat.zero_mul, Nat.zero_add, Nat.div_div_eq_div_mul, Nat.mul_comm]
    exact (Nat.div_eq_of_lt (by omega)).symm
  constructor
  · intro hsorted
    exact step_states_of_running total ht hrep calls 0 _ hi hs htot hq
      (List.pairwise_cons.mpr ⟨fun a _ => Nat.zero_le a, hsorted⟩)
  · exact step_inc_states_of_running total hrep envs 0 _
      ⟨hi, hs, htot, hst, hq, by rw [hc]; decide⟩ ht

/-- Witness of C12 (amended): the calls `step(2)`, `step(5)`, `step(5)`, `step(12)` on a session
of 10 units. -/
theorem C12_percent_monotone_witness :
    List.Chain percent_kept (start ⟨true, 0⟩ "Copy".toList 10 State.initial).state
      (step_states [(⟨true, 1⟩, 2), (⟨true, 2⟩, 5), (⟨true, 3⟩, 5), (⟨true, 4⟩, 12)]
        (start ⟨true, 0⟩ "Copy".toList 10 State.initial).state) :=
  (C12_percent_monotone ⟨true, 0⟩ "Copy".toList 10 State.initial
    [(⟨true, 1⟩, 2), (⟨true, 2⟩, 5), (⟨true, 3⟩, 5), (⟨true, 4⟩, 12)] [] rfl (by decide)
    (by decide)).1 (by decide)

/-- C13: for every text the label stored by `set_text` has at most `text_width` (35) characters;
a text of at most 35 characters is stored unchanged; a longer one is stored as its first
`text_width - 3` characters followed by `"..."`, which has exactly 35 characters and ends with
the three dots; and `set_text` applied to the stored label stores the same label. -/
theorem C13_label_truncation (text : List Char) (s : State) :
    (set_text text s).progress_text.length ≤ text_width
      ∧ (text.length ≤ text_width → (set_text text s).progress_text = text)
      ∧ (text_width < text.length →
          (set_text text s).progress_text = text.take (text_width - 3) ++ "...".toList
            ∧ (set_text text s).progress_text.length = text_width
            ∧ "...".toList <:+ (set_text text s).progress_text)
      ∧ set_text (set_text text s).progress_text (set_text text s) = set_text text s := by
  have hlen : (set_text text s).progress_text.length ≤ text_width := by
    rw [set_text_text]
    split
    · rename_i h
      simp only [text_width] at h ⊢
      simp only [List.length_append, List.length_take, List.length_cons, List.length_nil]
      omega
    · omega
  refine ⟨hlen, ?_, ?_, ?_⟩
  · intro h
    rw [set_text_text, if_neg (by omega)]
  · intro h
    have e : (set_text text s).progress_text = text.take (text_width - 3) ++ "...".toList := by
      rw [set_text_text, if_pos h]
      rfl
    refine ⟨e, ?_, ?_⟩
    · rw [e]
      simp only [text_width] at h ⊢
      simp only [List.length_append, List.length_take]
      have : "...".toList.length = 3 := rfl
      omega
    · rw [e]
      exact List.suffix_append _ _
  · have h1 := set_text_text (set_text text s).progress_text (set_text text s)
    rw [if_neg (by omega)] at h1
    rw [set_text_frame (set_text text s).progress_text (set_text text s), h1]

/-- Witness of C13: a text of 40 characters and the text `"Copy"`. -/
theorem C13_label_truncation_witness :
    (set_text "0123456789012345678901234567890123456789".toList State.initial).progress_text
        = "01234567890123456789012345678901...".toList
      ∧ (set_text "Copy".toList State.initial).progress_text = "Copy".toList :=
  ⟨((C13_label_truncation "0123456789012345678901234567890123456789".toList State.initial).2.2.1
      (by decide)).1.trans (by decide),
   (C13_label_truncation "Copy".toList State.initial).2.1 (by decide)⟩

/-- C14: for every elapsed time of `d ≥ 0` whole microseconds the text computed by
`stop(time_point)` is the specified one: from 60,000,000 on it is `H:M:S` with
`H = d / 3,600,000,000`, `M = (d / 60,000,000) mod 60`, `S = (d / 1,000,000) mod 60`, each in
decimal and zero-padded to at least two digits, where `H*3600 + M*60 + S = d / 1,000,000`; else
from 1,000,000 on `"<d / 1,000,000> seconds"`; else from 1,000 on `"<d / 1,000> milliseconds"`;
else `"<d> microseconds"`. 500000 microseconds give `"500 milliseconds"` and 65 seconds give
`"00:01:05"`. -/
theorem C14_duration_format (d : Nat) :
    format_duration (d : Int) = duration_text_spec d
      ∧ (d / 3600000000) * 3600 + (d / 60000000 % 60) * 60 + d / 1000000 % 60 = d / 1000000
      ∧ 2 ≤ (zero_pad 2 (decimal (d / 3600000000))).length
      ∧ (zero_pad 2 (decimal (d / 60000000 % 60))).length = 2
      ∧ (zero_pad 2 (decimal (d / 1000000 % 60))).length = 2
      ∧ format_duration 500000 = "500 milliseconds".toList
      ∧ format_duration 65000000 = "00:01:05".toList := by
  refine ⟨format_duration_eq_spec d, by omega, ?_, ?_, ?_, by decide, by decide⟩
  · simp only [zero_pad, List.length_append, List.length_replicate]
    omega
  · exact zero_pad_length_lt_100 _ (by omega)
  · exact zero_pad_length_lt_100 _ (by omega)

/-- C15: for every percentage up to 100 and every state that is neither idle nor stopped and
whose label was stored by `set_text`, `print` writes one line, which is: carriage return, the
label followed by spaces up to exactly `text_width` (35) characters, `" ["`, the colour escape
sequence when colouring succeeded, exactly `bar_width` (50) cells made of `pos` times `'='`, one
`'>'` when `pos < bar_width`, then spaces (`pos` the fill position), the restoring escape
sequence exactly when colouring succeeded, `"] "`, the percentage in decimal and `"%"`. At 100
all 50 cells are `'='`; at 0 they are `'>'` and 49 spaces. -/
theorem C15_render_format (env : Env) (complete : Nat) (text : List Char) (s0 s : State)
    (hc : complete ≤ 100) (hi : s.progress_idle = false) (hs : s.progress_stop = false)
    (hl : s.progress_text = (set_text text s0).progress_text) :
    print env complete s = [Event.render s.progress_text complete env.tty]
      ∧ (Event.render s.progress_text complete env.tty).text
          = [Char.ofNat 13]
            ++ (s.progress_text ++ List.replicate (text_width - s.progress_text.length) ' ')
            ++ " [".toList
            ++ (if env.tty then color_begin else [])
            ++ (List.replicate (fill_pos complete) '='
                ++ (if fill_pos complete < bar_width then ['>'] else [])
                ++ List.replicate (bar_width - 1 - fill_pos complete) ' ')
            ++ (if env.tty then color_restore else [])
            ++ "] ".toList ++ decimal complete ++ ['%']
      ∧ (s.progress_text ++ List.replicate (text_width - s.progress_text.length) ' ').length
          = text_width
      ∧ (List.replicate (fill_pos complete) '='
          ++ (if fill_pos complete < bar_width then ['>'] else [])
          ++ List.replicate (bar_width - 1 - fill_pos complete) ' ').length = bar_width
      ∧ glyphs (fill_pos 100) = List.replicate 50 '='
      ∧ glyphs (fill_pos 0) = '>' :: List.replicate 49 ' ' := by
  have hpos := fill_pos_le_bar_width complete (by omega)
  have hlen : s.progress_text.length ≤ text_width := by
    rw [hl, set_text_text]
    split
    · rename_i h
      simp only [text_width] at h ⊢
      simp only [List.length_append, List.length_take, List.length_cons, List.length_nil]
      omega
    · omega
  refine ⟨by simp [print, hi, hs], ?_, ?_, ?_, by decide, by decide⟩
  · simp only [Event.text, print_text, left_setw, glyphs_eq _ hpos]
  · simp only [List.length_append, List.length_replicate]
    omega
  · rw [← glyphs_eq _ hpos]
    simp [glyphs]

/-- Witness of C15: the line written at 50 for the label `"Copy"` without colouring. -/
theorem C15_render_format_witness :
    (Event.render "Copy".toList 50 false).text
      = (Char.ofNat 13 :: "Copy                                [".toList)
        ++ "=========================>                        ] 50%".toList :=
  (C15_render_format ⟨false, 0⟩ 50 "Copy".toList State.initial
    ⟨false, false, "Copy".toList, 4, 2, 50, 0⟩ (by decide) rfl rfl (by decide)).2.1.trans
    (by decide)

/-- C16: for every label, every `total > 0` and every prior state, stopped ones included,
`start` throws nothing and leaves the label as `set_text` stores it, `progress_total = total`,
`progress_step = 0`, `progress_current = 0`, `progress_stop = false` and `progress_idle` as it
was; when the session is not idle it writes one `print` line, at 0 (after the cursor escape
sequence when `stdout` is a terminal), and when it is idle it writes nothing. -/
theorem C16_start_postcondition (env : Env) (text : List Char) (total : Nat) (s : State)
    (ht : 0 < total) :
    (start env text total s).err = none
      ∧ (start env text total s).state.progress_text = (set_text text s).progress_text
      ∧ (start env text total s).state.progress_total = total
      ∧ (start env text total s).state.progress_step = 0
      ∧ (start env text total s).state.progress_current = 0
      ∧ (start env text total s).state.progress_stop = false
      ∧ (start env text total s).state.progress_idle = s.progress_idle
      ∧ (s.progress_idle = false →
          (start env text total s).out
              = (if env.tty then [Event.cursor_hide] else [])
                ++ [Event.render (set_text text s).progress_text 0 env.tty]
            ∧ rendered (start env text total s).out = [0])
      ∧ (s.progress_idle = true → (start env text total s).out = []) := by
  have hl : (set_text text (clear s)).progress_text = (set_text text s).progress_text := by
    rw [set_text_text, set_text_text]
  rw [start_of_pos env text total s ht, hl]
  refine ⟨rfl, rfl, rfl, rfl, rfl, rfl, rfl, ?_, ?_⟩
  · intro hi
    cases hty : env.tty <;> simp [hi, rendered]
  · intro hi
    simp [hi]

/-- Witness of C16: `start("Copy", 4)` on a stopped state with `stdout` a terminal. -/
theorem C16_start_postcondition_witness :
    (start ⟨true, 5⟩ "Copy".toList 4 ⟨false, true, [], 0, 0, 0, 0⟩).state
        = ⟨false, false, "Copy".toList, 4, 0, 0, 5⟩
      ∧ (start ⟨true, 5⟩ "Copy".toList 4 ⟨false, true, [], 0, 0, 0, 0⟩).out
        = [Event.cursor_hide, Event.render "Copy".toList 0 true] :=
  ⟨by decide,
   ((C16_start_postcondition ⟨true, 5⟩ "Copy".toList 4 ⟨false, true, [], 0, 0, 0, 0⟩
      (by decide)).2.2.2.2.2.2.2.1 rfl).1.trans (by decide)⟩

/-- C17: in every running session reached through the public operations (not idle, not
stopped, `progress_total > 0`), a `step(n)` with `n ≤ progress_total` whose computed percentage
is 100 (the `size_t` value, which is `(n*100 + total/2) / total` when that is representable), or
with `n == progress_total`, performs the automatic stop: it writes the `print` line at 100 and
the summary line, throws nothing, leaves the session stopped with label, total, step counter
and percentage cleared, so `progress_current` does not hold 100, and every later `step(m)` or
`step()` does nothing. -/
theorem C17_reaching_100_stops (env : Env) (n : Nat) (s : State) (hR : Reachable s)
    (hi : s.progress_idle = false) (hs : s.progress_stop = false) (ht : 0 < s.progress_total)
    (hn : n ≤ s.progress_total)
    (hp : n = s.progress_total ∨ percent_of n s.progress_total = 100
      ∨ (n * 100 + s.progress_total / 2 < size_mod
          ∧ (n * 100 + s.progress_total / 2) / s.progress_total = 100)) :
    (step env n s).out
        = [Event.render s.progress_text 100 env.tty,
           Event.summary (stop_duration env s.progress_time)]
          ++ (if env.tty then [Event.cursor_show] else [])
      ∧ (step env n s).err = none
      ∧ (step env n s).state.progress_stop = true
      ∧ (step env n s).state.progress_text = []
      ∧ (step env n s).state.progress_total = 0
      ∧ (step env n s).state.progress_step = 0
      ∧ (step env n s).state.progress_current = 0
      ∧ (∀ (env2 : Env) (m : Nat),
          step env2 m (step env n s).state
              = { state := (step env n s).state, out := [], err := none }
            ∧ step_inc env2 (step env n s).state
              = { state := (step env n s).state, out := [], err := none }) := by
  have hc := reachable_current_lt_100 s hR
  have hstep : step env n s
      = { state := stopped_state s, out := stop_output env s, err := none } := by
    rw [step_of_running env n s hi hs ht, if_neg (show ¬ n > s.progress_total by omega)]
    by_cases h1 : n = s.progress_total
    · rw [if_pos h1]
    · rw [if_neg h1]
      have h100 : percent_of n s.progress_total = 100 := by
        rcases hp with h | h | ⟨hrep, h⟩
        · exact absurd h h1
        · exact h
        · rw [percent_of_eq n s.progress_total hrep]
          exact h
      rw [if_neg (by omega), if_pos h100]
  rw [hstep]
  refine ⟨rfl, rfl, rfl, rfl, rfl, rfl, rfl, fun env2 m => ?_⟩
  constructor
  · simp [step, stopped_state, hi]
  · simp [step_inc, stopped_state, hi]

/-- Witness of C17 at `total = 200`, `n = 199`, a step strictly below the total. -/
theorem C17_reaching_100_stops_witness :
    (199 * 100 + 200 / 2) / 200 = 100
      ∧ ((Call.step 199).run ⟨false, 9⟩
          ((Call.start "Copy".toList 200).run ⟨false, 5⟩ State.initial).state).state.progress_stop
        = true :=
  ⟨by decide,
   (C17_reaching_100_stops ⟨false, 9⟩ 199
      ((Call.start "Copy".toList 200).run ⟨false, 5⟩ State.initial).state
      (Reachable.call ⟨false, 5⟩ (Call.start "Copy".toList 200) _ Reachable.initial)
      rfl rfl (by decide) (by decide) (Or.inr (Or.inr ⟨by decide, by decide⟩))).2.2.1⟩

/-- C18, the failing inputs: in binary64 arithmetic `29 / 100.0` is
`5224175567749775 / 2^54`, below 0.29, and `50.0` times it is `8162774324609023 / 2^49`, below
14.5, so `print(29)` has fill position 14 where `(29 + 1) / 2` is 15; likewise `print(57)` has
28 where `(57 + 1) / 2` is 29. -/
theorem C18_fill_pos_binary64 :
    fill_pos 29 = 14 ∧ (29 + 1) / 2 = 15 ∧ fill_pos 57 = 28 ∧ (57 + 1) / 2 = 29
      ∧ Double.div (Double.of_nat 29) (Double.of_nat 100)
          = { num := 5224175567749775, den := 18014398509481984 }
      ∧ Double.mul (Double.of_nat 50) { num := 5224175567749775, den := 18014398509481984 }
          = { num := 8162774324609023, den := 562949953421312 }
      ∧ 2 * 8162774324609023 < 29 * 562949953421312 := by
  decide

/-- C19: in every state reachable from the initial globals by `start`, `step(n)`, `step()`,
`stop`, `clear` and `idle`, failed calls included, `progress_current` lies in `[0, 100]`; the
totals and steps are arbitrary, so this covers the steps whose `step*100 + total/2` wraps
around in `size_t`. -/
theorem C19_percent_range (s : State) (h : Reachable s) :
    0 ≤ s.progress_current ∧ s.progress_current ≤ 100 :=
  ⟨Nat.zero_le _, Nat.le_of_lt (reachable_current_lt_100 s h)⟩

/-- Witness of C19: `start` with the largest `size_t` total, then a `step` that wraps around. -/
theorem C19_percent_range_witness :
    ((Call.step 9223372036854775808).run ⟨true, 9⟩
        ((Call.start "Copy".toList 18446744073709551615).run ⟨true, 5⟩
          State.initial).state).state.progress_current ≤ 100 :=
  (C19_percent_range _ (Reachable.call ⟨true, 9⟩ (Call.step 9223372036854775808) _
    (Reachable.call ⟨true, 5⟩ (Call.start "Copy".toList 18446744073709551615) _
      Reachable.initial))).2

/-- C20: for every label, every `total > 0` with `total*100 + total/2` representable in `size_t`
and every `n ≤ total`, after `start(label, total)` on a non-idle session and `step(n)` the last
`print` line written shows `(n*100 + total/2) / total`, also for `n = total` and for the steps
that trigger the automatic stop. -/
theorem C20_displayed_percentage (env1 env2 : Env) (text : List Char) (total n : Nat) (s : State)
    (hidle : s.progress_idle = false) (ht : 0 < total) (hn : n ≤ total)
    (hrep : total * 100 + total / 2 < size_mod) :
    (rendered ((start env1 text total s).out
        ++ (step env2 n (start env1 text total s).state).out)).getLast?
      = some ((n * 100 + total / 2) / total) := by
  have hout : rendered (start env1 text total s).out = [0] := by
    rw [start_of_pos env1 text total s ht]
    cases hty : env1.tty <;> simp [hidle, rendered]
  obtain ⟨-, hi, hs, htot, -, hc⟩ := start_ok env1 text total s ht
  generalize start env1 text total s = r at hout hi hs htot hc ⊢
  rw [hidle] at hi
  have hw : percent_of n total = (n * 100 + total / 2) / total := by
    unfold percent_of
    have h1 : n * 100 + total / 2 < size_mod := by nlinarith
    rw [wrap_of_lt (show n * 100 < size_mod by omega), wrap_of_lt h1]
  have hq : (total * 100 + total / 2) / total = 100 := by
    have h2 : total / 2 < total := Nat.div_lt_self ht (by decide)
    rw [Nat.mul_comm, Nat.add_comm, Nat.add_mul_div_right _ _ ht, Nat.div_eq_of_lt h2]
  have hrun := step_of_running env2 n r.state hi hs (by omega)
  rw [htot, hc, hw, if_neg (show ¬ n > total by omega)] at hrun
  rw [rendered_append, hout, hrun]
  by_cases h1 : n = total
  · rw [if_pos h1, rendered_stop_output, h1, hq]
    rfl
  · rw [if_neg h1]
    by_cases h2 : (n * 100 + total / 2) / total = 0
    · rw [if_pos h2, h2]
      rfl
    · rw [if_neg h2]
      by_cases h3 : (n * 100 + total / 2) / total = 100
      · rw [if_pos h3, rendered_stop_output, h3]
        rfl
      · rw [if_neg h3]
        rfl

/-- Witness of C20 at `total = 200`, `n = 199`: the last line shows 100. -/
theorem C20_displayed_percentage_witness :
    (rendered ((start ⟨true, 0⟩ "Copy".toList 200 State.initial).out
        ++ (step ⟨true, 9⟩ 199 (start ⟨true, 0⟩ "Copy".toList 200 State.initial).state).out)).getLast?
      = some 100 :=
  C20_displayed_percentage ⟨true, 0⟩ ⟨true, 9⟩ "Copy".toList 200 199 State.initial rfl (by decide)
    (by decide) (by decide)

end bar
